import Mathlib

/-!
Verification of the tracing-clock core (`kernel/linux/kernel/trace/trace_clock.c`).

The file shallowly embeds the three clock read operations:

* `trace_clock_local`  — reads `sched_clock()` with interrupts masked;
* `trace_clock`        — the "medium" clock, delegating to `cpu_clock(cpu)`;
* `trace_clock_global` — the globally serialized clock (non-BRCM branch),
  maintaining `prev_trace_clock_time` under a raw spinlock, with an NMI
  bypass path, plus the `CONFIG_MIPS_BRCM` alternate variant.

Machine integers are modelled as `Nat` with explicit reduction modulo `2^64`
where the C code performs `u64`/`s64` arithmetic.  Each operation also emits
the trace of interrupt-masking and lock events it performs, so that claims
about interrupt state and guard acquisition can be stated.
-/

namespace TraceClock

/-- Size of the `u64` value space. -/
def U64 : Nat := 2 ^ 64

/-- Threshold at which a `u64` bit pattern, reinterpreted as `s64`, is negative. -/
def S64_SIGN : Nat := 2 ^ 63

theorem U64_eq : U64 = 18446744073709551616 := by norm_num [U64]

theorem S64_SIGN_eq : S64_SIGN = 9223372036854775808 := by norm_num [S64_SIGN]

/-- C unsigned 64-bit subtraction `a - b` (wrapping modulo `2^64`). -/
def u64sub (a b : Nat) : Nat := (a % U64 + (U64 - b % U64)) % U64

/-- The test `(s64)(now - prev) < 0` from line 135 of the source: the wrapped
64-bit difference, reinterpreted as a signed value, is negative. -/
def sdiffNeg (now prev : Nat) : Bool := decide (S64_SIGN ≤ u64sub now prev)

/-- Events an operation performs, in order: interrupt save/restore, reads of the
underlying time sources, and guard (raw spinlock) acquisition/release. -/
inductive Event where
  | irqSave : Event
  | irqRestore : Event
  | readSched : Event
  | readCpu : Event
  | lockAcquire : Event
  | lockRelease : Event
deriving DecidableEq

/-- Result of one `trace_clock_global` call: the returned timestamp, the value
of `prev_trace_clock_time` after the call, and the events performed. -/
structure GlobalResult where
  ret : Nat
  state : Nat
  events : List Event
deriving DecidableEq

/-- Embedding of `trace_clock_local` (lines 29–44): mask interrupts, read
`sched_clock()`, restore interrupts, return the reading.  The environment's
`sched_clock()` reading is the argument. -/
def trace_clock_local (sched_clock : Nat) : Nat × List Event :=
  (sched_clock, [Event.irqSave, Event.readSched, Event.irqRestore])

/-- Embedding of `trace_clock` (lines 54–57): return `cpu_clock(raw_smp_processor_id())`.
The environment supplies the per-processor clock function and the current
processor id.  No interrupt masking and no locking appear in the source. -/
def trace_clock (cpu_clock : Nat → Nat) (this_cpu : Nat) : Nat × List Event :=
  (cpu_clock this_cpu, [Event.readCpu])

/-- Embedding of `trace_clock_global` (lines 112–147, the non-`CONFIG_MIPS_BRCM`
branch).  `in_nmi` is the environment's `in_nmi()` answer, `cpu_clock_now` the
value `cpu_clock(this_cpu)` reads, and `prev` the current
`prev_trace_clock_time`.  In NMI context the guard is skipped and the raw
reading returned; otherwise, under the guard, a reading whose signed 64-bit
difference from `prev` is negative is replaced by `prev + 1` (wrapping), and
`prev_trace_clock_time` is set to the returned value. -/
def trace_clock_global (in_nmi : Bool) (cpu_clock_now : Nat) (prev : Nat) : GlobalResult :=
  if in_nmi then
    { ret := cpu_clock_now
      state := prev
      events := [Event.irqSave, Event.readCpu, Event.irqRestore] }
  else
    let now := if sdiffNeg cpu_clock_now prev then (prev + 1) % U64 else cpu_clock_now
    { ret := now
      state := now
      events := [Event.irqSave, Event.readCpu, Event.lockAcquire,
                 Event.lockRelease, Event.irqRestore] }

/-- A sequence of `trace_clock_global` calls in guard-acquisition order.  Each
call is given as `(in_nmi, raw cpu_clock sample)`; the result is the list of
returned timestamps together with the final `prev_trace_clock_time`. -/
def runCalls : List (Bool × Nat) → Nat → List Nat × Nat
  | [], prev => ([], prev)
  | (nmi, s) :: rest, prev =>
    let r := trace_clock_global nmi s prev
    ((r.ret) :: (runCalls rest r.state).1, (runCalls rest r.state).2)

/-- Local-interrupt state: whether interrupts are currently enabled, and the
`flags` value saved by `raw_local_irq_save`. -/
structure IrqState where
  enabled : Bool
  saved : Bool
deriving DecidableEq

/-- Effect of one event on the interrupt state: `raw_local_irq_save` records
the current state and disables interrupts; `raw_local_irq_restore` restores the
recorded state; other events leave interrupt state unchanged. -/
def irqStep (st : IrqState) : Event → IrqState
  | Event.irqSave => ⟨false, st.enabled⟩
  | Event.irqRestore => ⟨st.saved, st.saved⟩
  | _ => st

/-- Pair each event of a trace with the interrupt state in which it executes. -/
def execStates : IrqState → List Event → List (Event × IrqState)
  | _, [] => []
  | st, e :: es => (e, st) :: execStates (irqStep st e) es

/-- Interrupt state on entry: interrupts enabled. -/
def irqInit : IrqState := ⟨true, true⟩

/-- An event trace runs with interrupts masked for its whole duration and
restores the saved interrupt state before returning: every event other than
the opening `irqSave` executes with interrupts disabled, and the final
interrupt state has interrupts enabled again (as on entry). -/
def masksForDuration (es : List Event) : Prop :=
  (∀ p ∈ execStates irqInit es, p.1 = Event.irqSave ∨ p.2.enabled = false) ∧
  (es.foldl irqStep irqInit).enabled = true

instance (es : List Event) : Decidable (masksForDuration es) := by
  unfold masksForDuration; infer_instance

/-- Nanoseconds per second (`NSEC_PER_SEC`). -/
def NSEC_PER_SEC : Nat := 1000000000

/-- Embedding of `timespec_add_ns`: add `ns` nanoseconds to the timespec
`(sec, nsec)`, carrying overflow into the seconds field. -/
def timespec_add_ns (sec nsec ns : Nat) : Nat × Nat :=
  (sec + (nsec + ns) / NSEC_PER_SEC, (nsec + ns) % NSEC_PER_SEC)

/-- Embedding of the `CONFIG_MIPS_BRCM` branch of `trace_clock_global`
(lines 81–110): compute the masked cycle delta since `cycle_last`, convert to
nanoseconds via `mult` and `shift` (the `s64` product wraps modulo `2^64`),
add to the raw time, and truncate seconds to 4 digits:
`now = (ts.tv_sec % 10000) * NSEC_PER_SEC + ts.tv_nsec`. -/
def trace_clock_global_brcm (cycle_now cycle_last mask mult shift rsec rnsec : Nat) : Nat :=
  let cycle_delta := (u64sub cycle_now cycle_last) &&& mask
  let nsecs := ((cycle_delta * mult) % U64) >>> shift
  let ts := timespec_add_ns rsec rnsec nsecs
  (ts.1 % 10000) * NSEC_PER_SEC + ts.2

/-! ## Helper lemmas -/

/-- The wrapped difference of a value with itself is zero. -/
theorem u64sub_self (a : Nat) : u64sub a a = 0 := by
  unfold u64sub
  have hU : 0 < U64 := by rw [U64_eq]; omega
  have h1 : a % U64 < U64 := Nat.mod_lt a hU
  have h : a % U64 + (U64 - a % U64) = U64 := by omega
  rw [h, Nat.mod_self]

/-- In the signed-positive range (both values below `2^63`), the signed-negative
test on the wrapped difference coincides with the numeric order. -/
theorem sdiffNeg_iff_lt (s prev : Nat) (hs : s < S64_SIGN) (hp : prev < S64_SIGN) :
    sdiffNeg s prev = true ↔ s < prev := by
  unfold sdiffNeg u64sub
  rw [S64_SIGN_eq] at hs hp ⊢
  have hms : s % U64 = s := Nat.mod_eq_of_lt (by rw [U64_eq]; omega)
  have hmp : prev % U64 = prev := Nat.mod_eq_of_lt (by rw [U64_eq]; omega)
  rw [decide_eq_true_eq, hms, hmp, U64_eq]
  by_cases h : s < prev
  · rw [Nat.mod_eq_of_lt (show s + (18446744073709551616 - prev) <
      18446744073709551616 by omega)]
    omega
  · have e : s + (18446744073709551616 - prev) = (s - prev) + 18446744073709551616 := by
      omega
    rw [e, Nat.add_mod_right,
      Nat.mod_eq_of_lt (show s - prev < 18446744073709551616 by omega)]
    omega

/-- Boolean form of `sdiffNeg_iff_lt`. -/
theorem sdiffNeg_eq_decide (s prev : Nat) (hs : s < S64_SIGN) (hp : prev < S64_SIGN) :
    sdiffNeg s prev = decide (s < prev) := by
  by_cases h : s < prev
  · simp [h, (sdiffNeg_iff_lt s prev hs hp).mpr h]
  · rw [decide_eq_false h]
    exact Bool.eq_false_iff.mpr (fun hb => h ((sdiffNeg_iff_lt s prev hs hp).mp hb))

/-- In the signed-positive range, one guarded (non-NMI) `trace_clock_global`
call returns `prev + 1` when the sample is behind `prev` and the raw sample
otherwise, and stores the returned value. -/
theorem global_nonNMI_eq (s prev : Nat) (hs : s < S64_SIGN) (hp : prev < S64_SIGN) :
    trace_clock_global false s prev =
      { ret := if s < prev then prev + 1 else s
        state := if s < prev then prev + 1 else s
        events := [Event.irqSave, Event.readCpu, Event.lockAcquire,
                   Event.lockRelease, Event.irqRestore] } := by
  unfold trace_clock_global
  rw [sdiffNeg_eq_decide s prev hs hp]
  by_cases h : s < prev
  · have hmod : (prev + 1) % U64 = prev + 1 := by
      rw [U64_eq]; rw [S64_SIGN_eq] at hp; exact Nat.mod_eq_of_lt (by omega)
    simp [h, hmod]
  · simp [h]

/-- Events of the NMI path: interrupts saved, clock read, interrupts restored;
the guard is never touched. -/
theorem global_events_nmi (s prev : Nat) :
    (trace_clock_global true s prev).events =
      [Event.irqSave, Event.readCpu, Event.irqRestore] := rfl

/-- Events of the guarded path: interrupts saved, clock read, guard acquired
and released, interrupts restored. -/
theorem global_events_nonNMI (s prev : Nat) :
    (trace_clock_global false s prev).events =
      [Event.irqSave, Event.readCpu, Event.lockAcquire, Event.lockRelease,
       Event.irqRestore] := rfl

/-- A non-NMI call stores exactly the value it returns. -/
theorem global_state_eq_ret (s prev : Nat) :
    (trace_clock_global false s prev).state = (trace_clock_global false s prev).ret := by
  unfold trace_clock_global
  simp

/-- Main induction for guarded call sequences in the signed-positive range
(with one unit of headroom per call for forced advances): the exposed values,
headed by the initial `prev_trace_clock_time`, form a `≤`-chain, the initial
value never exceeds the final one, and every returned value is at most the
final `prev_trace_clock_time`. -/
theorem runCalls_mono :
    ∀ (calls : List (Bool × Nat)) (prev : Nat),
      (∀ c ∈ calls, c.1 = false) →
      prev + calls.length < S64_SIGN →
      (∀ c ∈ calls, c.2 + calls.length < S64_SIGN) →
      List.Chain' (· ≤ ·) (prev :: (runCalls calls prev).1) ∧
        prev ≤ (runCalls calls prev).2 ∧
        ∀ r ∈ (runCalls calls prev).1, r ≤ (runCalls calls prev).2
  | [], prev, _, _, _ => by simp [runCalls]
  | (nmi, s) :: rest, prev, hall, hp, hs => by
    have hnmi : nmi = false := hall _ (List.mem_cons_self _ _)
    subst hnmi
    have hsS : s < S64_SIGN := by
      have := hs _ (List.mem_cons_self _ _)
      simp only [List.length_cons] at this
      omega
    have hpS : prev < S64_SIGN := by
      simp only [List.length_cons] at hp
      omega
    have hstep := global_nonNMI_eq s prev hsS hpS
    have hvle : prev ≤ if s < prev then prev + 1 else s := by
      split <;> omega
    have hvb : (if s < prev then prev + 1 else s) + rest.length < S64_SIGN := by
      simp only [List.length_cons] at hp
      have hh := hs _ (List.mem_cons_self _ _)
      simp only [List.length_cons] at hh
      split <;> omega
    have ih := runCalls_mono rest (if s < prev then prev + 1 else s)
      (fun c hc => hall c (List.mem_cons_of_mem _ hc)) hvb
      (fun c hc => by
        have := hs c (List.mem_cons_of_mem _ hc)
        simp only [List.length_cons] at this
        omega)
    simp only [runCalls, hstep]
    refine ⟨List.chain'_cons.mpr ⟨hvle, ih.1⟩, le_trans hvle ih.2.1, ?_⟩
    intro r hr
    rcases List.mem_cons.mp hr with h | h
    · exact h ▸ ih.2.1
    · exact ih.2.2 r h

/-! ## Claims -/

/-- C1, counterexample: two guarded non-NMI calls whose raw samples are both 5,
starting from `prev_trace_clock_time = 0`, both return 5 — the signed
difference at the second call is zero, not negative, so no forced advance
happens and the returned sequence `[5, 5]` is not strictly increasing. -/
theorem global_strict_increase_counterexample :
    (runCalls [(false, 5), (false, 5)] 0).1 = [5, 5] ∧
    ¬ List.Chain' (· < ·) (runCalls [(false, 5), (false, 5)] 0).1 := by
  refine ⟨by decide, fun h => ?_⟩
  rw [(by decide : (runCalls [(false, 5), (false, 5)] 0).1 = [5, 5])] at h
  exact absurd (List.chain'_cons.mp h).1 (by omega)

/-- C1, amended: for every sequence of `readGlobalClock` calls made from
non-NMI context, ordered by guard-acquisition order, with the initial
`prev_trace_clock_time` and all raw samples in the signed-positive `u64` range
with one unit of headroom per call, the returned sequence is non-decreasing
(`result[i+1] ≥ result[i]`); consecutive calls may return equal values. -/
theorem global_nondecreasing_of_bounded (calls : List (Bool × Nat)) (prev : Nat)
    (hall : ∀ c ∈ calls, c.1 = false)
    (hp : prev + calls.length < S64_SIGN)
    (hs : ∀ c ∈ calls, c.2 + calls.length < S64_SIGN) :
    List.Chain' (· ≤ ·) (runCalls calls prev).1 :=
  ((runCalls_mono calls prev hall hp hs).1).tail

/-- C1, witness: concrete bounded run for the amended monotonicity theorem. -/
theorem global_nondecreasing_of_bounded_witness :
    List.Chain' (· ≤ ·) (runCalls [(false, 10), (false, 7)] 0).1 :=
  global_nondecreasing_of_bounded [(false, 10), (false, 7)] 0 (by decide) (by decide)
    (by decide)

/-- C2, counterexample: with `prev_trace_clock_time = 5`, a non-NMI call whose
raw sample is 5 (so ≤ `lastObserved`) returns 5, not `lastObserved + 1 = 6`:
the forced advance fires only on a strictly negative signed difference. -/
theorem forced_advance_on_equal_counterexample :
    (trace_clock_global false 5 5).ret = 5 ∧
    (trace_clock_global false 5 5).ret ≠ 5 + 1 := by
  decide

/-- C2, amended: for every non-NMI call whose raw sample is strictly behind
`prev_trace_clock_time` under the signed 64-bit difference (not merely ≤), the
returned and stored value is exactly `prev_trace_clock_time + 1`. -/
theorem forced_advance_exact (s prev : Nat) (h1 : sdiffNeg s prev = true)
    (h2 : prev + 1 < U64) :
    (trace_clock_global false s prev).ret = prev + 1 ∧
    (trace_clock_global false s prev).state = prev + 1 := by
  unfold trace_clock_global
  simp [h1, Nat.mod_eq_of_lt h2]

/-- C2, witness: sample 7 behind `prev_trace_clock_time = 9` returns exactly 10. -/
theorem forced_advance_exact_witness :
    (trace_clock_global false 7 9).ret = 9 + 1 ∧
    (trace_clock_global false 7 9).state = 9 + 1 :=
  forced_advance_exact 7 9 (by decide) (by decide)

/-- C3: a call made in NMI context returns the raw per-processor sample
unmodified, leaves `prev_trace_clock_time` unchanged, and never acquires
(or releases) the shared guard. -/
theorem nmi_bypass (s prev : Nat) :
    (trace_clock_global true s prev).ret = s ∧
    (trace_clock_global true s prev).state = prev ∧
    Event.lockAcquire ∉ (trace_clock_global true s prev).events ∧
    Event.lockRelease ∉ (trace_clock_global true s prev).events := by
  refine ⟨rfl, rfl, ?_, ?_⟩ <;> rw [global_events_nmi] <;> decide

/-- C4, counterexample: an NMI-context call with `prev_trace_clock_time = 0`
and raw sample 4000 returns 4000 while leaving `prev_trace_clock_time` at 0,
so a returned value exceeds `lastObserved`. -/
theorem returned_le_lastObserved_counterexample :
    runCalls [(true, 4000)] 0 = ([4000], 0) ∧ ¬ (4000 : Nat) ≤ 0 := by
  decide

/-- C4, amended: restricted to non-NMI calls in the signed-positive range
(with headroom for forced advances), every returned value is ≤ the final
`prev_trace_clock_time`, and the successive values of `prev_trace_clock_time`
— the initial value followed by each call's stored result — are
non-decreasing. -/
theorem returned_le_lastObserved_of_bounded (calls : List (Bool × Nat)) (prev : Nat)
    (hall : ∀ c ∈ calls, c.1 = false)
    (hp : prev + calls.length < S64_SIGN)
    (hs : ∀ c ∈ calls, c.2 + calls.length < S64_SIGN) :
    (∀ r ∈ (runCalls calls prev).1, r ≤ (runCalls calls prev).2) ∧
    List.Chain' (· ≤ ·) (prev :: (runCalls calls prev).1) := by
  have h := runCalls_mono calls prev hall hp hs
  exact ⟨h.2.2, h.1⟩

/-- C4, witness: concrete bounded run for the amended invariant. -/
theorem returned_le_lastObserved_of_bounded_witness :
    (∀ r ∈ (runCalls [(false, 3), (false, 2)] 0).1,
      r ≤ (runCalls [(false, 3), (false, 2)] 0).2) ∧
    List.Chain' (· ≤ ·) (0 :: (runCalls [(false, 3), (false, 2)] 0).1) :=
  returned_le_lastObserved_of_bounded [(false, 3), (false, 2)] 0 (by decide) (by decide)
    (by decide)

/-- C5: if a guarded call returns 1000 (so it stores 1000), the next guarded
call whose raw sample is 998 — strictly behind under the signed 64-bit
difference — returns exactly 1001, not 998. -/
theorem skew_backward_forced_advance (s prev : Nat)
    (h : (trace_clock_global false s prev).ret = 1000) :
    (trace_clock_global false 998 (trace_clock_global false s prev).state).ret = 1001 := by
  rw [global_state_eq_ret, h]
  decide

/-- C5, witness: first call samples 1000 from an initial 0 and returns 1000;
the follow-up call sampling 998 returns 1001. -/
theorem skew_backward_forced_advance_witness :
    (trace_clock_global false 998 (trace_clock_global false 1000 0).state).ret = 1001 :=
  skew_backward_forced_advance 1000 0 (by decide)

/-- C6: a non-NMI call whose raw sample is strictly ahead of
`prev_trace_clock_time` under the signed 64-bit difference returns the sample
unchanged and stores it as the new `prev_trace_clock_time`. -/
theorem pass_through_of_ahead (s prev : Nat)
    (_h0 : 0 < u64sub s prev) (h1 : u64sub s prev < S64_SIGN) :
    (trace_clock_global false s prev).ret = s ∧
    (trace_clock_global false s prev).state = s := by
  have hneg : sdiffNeg s prev = false := by
    unfold sdiffNeg
    exact decide_eq_false (by omega)
  unfold trace_clock_global
  simp [hneg]

/-- C6, witness: successive samples 1000 then 1500 from an initial 0 pass
straight through, returning 1000 and 1500. -/
theorem pass_through_of_ahead_witness :
    ((trace_clock_global false 1000 0).ret = 1000 ∧
      (trace_clock_global false 1000 0).state = 1000) ∧
    ((trace_clock_global false 1500 1000).ret = 1500 ∧
      (trace_clock_global false 1500 1000).state = 1500) :=
  ⟨pass_through_of_ahead 1000 0 (by decide) (by decide),
    pass_through_of_ahead 1500 1000 (by decide) (by decide)⟩

/-- C7, counterexample: the medium clock (`trace_clock`) performs no interrupt
masking in this source — its only event is the `cpu_clock` read, which
executes with interrupts still enabled — so it does not run with local
interrupts masked for the duration of the call. -/
theorem medium_clock_unmasked_counterexample :
    ¬ masksForDuration (trace_clock (fun _ => 3) 0).2 := by
  decide

/-- C7, amended: `trace_clock_local` and `trace_clock_global` (on both its NMI
and non-NMI paths) run with local interrupts masked for the entire call and
restore the saved interrupt state before returning; `trace_clock` delegates to
`cpu_clock` without touching the interrupt state itself. -/
theorem irq_masked_local_global (sched s prev : Nat) (nmi : Bool)
    (cpu_clock : Nat → Nat) (cpu : Nat) :
    masksForDuration (trace_clock_local sched).2 ∧
    masksForDuration (trace_clock_global nmi s prev).events ∧
    (trace_clock cpu_clock cpu).2 = [Event.readCpu] := by
  refine ⟨?_, ?_, rfl⟩
  · show masksForDuration [Event.irqSave, Event.readSched, Event.irqRestore]
    decide
  · cases nmi
    · rw [global_events_nonNMI]; decide
    · rw [global_events_nmi]; decide

/-- C8: every read operation is total: for in-range environment readings it
returns an in-range `u64` timestamp (and there is no error value — the
embedded operations return plain values, not `Option`/`Except`). -/
theorem clock_reads_total (sched s prev cpu : Nat) (cpu_clock : Nat → Nat) (nmi : Bool)
    (hsched : sched < U64) (hcpu : ∀ c, cpu_clock c < U64)
    (hs : s < U64) (hp : prev < U64) :
    (trace_clock_local sched).1 < U64 ∧
    (trace_clock cpu_clock cpu).1 < U64 ∧
    (trace_clock_global nmi s prev).ret < U64 ∧
    (trace_clock_global nmi s prev).state < U64 := by
  have hg : (trace_clock_global nmi s prev).ret < U64 ∧
      (trace_clock_global nmi s prev).state < U64 := by
    cases nmi
    case false =>
      by_cases hb : sdiffNeg s prev = true
      · have hm : (prev + 1) % U64 < U64 := Nat.mod_lt _ (by rw [U64_eq]; omega)
        constructor <;> simp [trace_clock_global, hb, hm]
      · have hb' : sdiffNeg s prev = false := Bool.eq_false_iff.mpr hb
        constructor <;> simp [trace_clock_global, hb', hs]
    case true =>
      exact ⟨hs, hp⟩
  exact ⟨hsched, hcpu cpu, hg.1, hg.2⟩

/-- C8, witness: concrete in-range environment readings. -/
theorem clock_reads_total_witness :
    (trace_clock_local 1).1 < U64 ∧
    (trace_clock (fun _ => 2) 0).1 < U64 ∧
    (trace_clock_global false 3 4).ret < U64 ∧
    (trace_clock_global false 3 4).state < U64 :=
  clock_reads_total 1 3 4 0 (fun _ => 2) false (by decide)
    (fun _ => (by decide : (2 : Nat) < U64)) (by decide) (by decide)

/-- C9: a non-NMI call whose raw sample has signed 64-bit difference zero from
`prev_trace_clock_time` (i.e. the sample equals it) returns that value
unchanged — no `+1` forced advance — and `prev_trace_clock_time` keeps its
value, so two guard-ordered calls can return identical timestamps. -/
theorem equal_sample_unchanged (s prev : Nat) (hs : s < U64) (hp : prev < U64)
    (hz : u64sub s prev = 0) :
    s = prev ∧
    (trace_clock_global false s prev).ret = prev ∧
    (trace_clock_global false s prev).state = prev ∧
    (runCalls [(false, prev), (false, prev)] prev).1 = [prev, prev] := by
  have hsp : s = prev := by
    unfold u64sub at hz
    rw [U64_eq] at hz hs hp
    rw [Nat.mod_eq_of_lt hs, Nat.mod_eq_of_lt hp] at hz
    omega
  subst hsp
  have hneg : sdiffNeg s s = false := by
    unfold sdiffNeg
    rw [u64sub_self]
    exact decide_eq_false (by rw [S64_SIGN_eq]; omega)
  refine ⟨rfl, ?_, ?_, ?_⟩
  · simp [trace_clock_global, hneg]
  · simp [trace_clock_global, hneg]
  · simp [runCalls, trace_clock_global, hneg]

/-- C9, witness: sample 1000 against `prev_trace_clock_time = 1000`. -/
theorem equal_sample_unchanged_witness :
    (1000 : Nat) = 1000 ∧
    (trace_clock_global false 1000 1000).ret = 1000 ∧
    (trace_clock_global false 1000 1000).state = 1000 ∧
    (runCalls [(false, 1000), (false, 1000)] 1000).1 = [1000, 1000] :=
  equal_sample_unchanged 1000 1000 (by decide) (by decide) (by decide)

/-- C10: the `CONFIG_MIPS_BRCM` variant truncates the seconds field to 4
digits: with no cycle delta the result is
`(sec % 10000) * NSEC_PER_SEC + nsec`; the value is periodic in the seconds
field with period 10000; and across a wrap it falls back toward zero — the
reading at 10000 s is smaller than the reading one nanosecond earlier. -/
theorem brcm_truncation (cycle_now cycle_last mask mult shift rsec rnsec : Nat)
    (hn : rnsec < NSEC_PER_SEC) :
    trace_clock_global_brcm cycle_now cycle_now mask mult shift rsec rnsec =
      (rsec % 10000) * NSEC_PER_SEC + rnsec ∧
    trace_clock_global_brcm cycle_now cycle_last mask mult shift (rsec + 10000) rnsec =
      trace_clock_global_brcm cycle_now cycle_last mask mult shift rsec rnsec ∧
    trace_clock_global_brcm 0 0 0 0 0 10000 0 <
      trace_clock_global_brcm 0 0 0 0 0 9999 999999999 := by
  refine ⟨?_, ?_, by decide⟩
  · simp only [trace_clock_global_brcm, timespec_add_ns, u64sub_self, Nat.zero_and,
      Nat.zero_mul, Nat.zero_mod, Nat.zero_shiftRight, Nat.add_zero]
    rw [Nat.div_eq_of_lt hn, Nat.mod_eq_of_lt hn, Nat.add_zero]
  · simp only [trace_clock_global_brcm, timespec_add_ns]
    rw [Nat.add_right_comm rsec 10000, Nat.add_mod_right]

/-- C10, witness: concrete instance of the truncation and periodicity facts. -/
theorem brcm_truncation_witness :
    trace_clock_global_brcm 42 42 255 7 3 9999 999999999 =
      (9999 % 10000) * NSEC_PER_SEC + 999999999 ∧
    trace_clock_global_brcm 42 13 255 7 3 (9999 + 10000) 999999999 =
      trace_clock_global_brcm 42 13 255 7 3 9999 999999999 ∧
    trace_clock_global_brcm 0 0 0 0 0 10000 0 <
      trace_clock_global_brcm 0 0 0 0 0 9999 999999999 :=
  brcm_truncation 42 13 255 7 3 9999 999999999 (by decide)

end TraceClock
